import Mathlib

/-!
Verification of the `pRateLimit` admission controller (`src/rateLimit.ts`).

The source is a single function producing a `limiter`/`cleanup` pair around a
`QuotaManager`, a FIFO queue of runner closures, and two kinds of timers
(per-task deadline timers and one fallback poll timer).  We embed the system
as a small-step transition system: the synchronous code of `next()`, the
runner closure `run`, the `limiter` entry point and `cleanupFn` are translated
directly into pure state transformers; the asynchronous occurrences (a timer
firing, a task factory's promise settling, an external `limiter`/`cleanup`
call) are the events of the transition system, each running its JS callback
to completion (the single-threaded event-loop model of the source).

`QuotaManager`, `Dequeue` and the two error classes are imported by
`rateLimit.ts` but their sources are not part of the analysed tree; they are
modelled from the spec (§4.1, §3): the manager admits while `activeCount` is
below a concurrency limit and never once closed, `end()` decrements the
active count, the queue is FIFO, and the error classes are represented as
error kinds.  Ghost fields (`admissions`, `endCalls`, `closeCalls`,
`startLog`, `outstanding`, `settleAttempts`) record event counts for the
stated properties and are read by no transition.
-/

set_option autoImplicit false

namespace PRateLimit

/-- Error kinds: `AlreadyClosedError`, `RateLimitTimeoutError`, and an error
rejected by the caller-supplied task factory itself (propagated verbatim). -/
inductive Err : Type where
  | closed : Err
  | timeout : Err
  | taskErr : Nat → Err
deriving DecidableEq, Repr

/-- State of the promise returned to the caller by `limiter`. -/
inductive Promise : Type where
  | pending : Promise
  | fulfilled : Nat → Promise
  | rejected : Err → Promise
deriving DecidableEq, Repr

/-- State of a task's per-task `timerId` closure variable together with the
scheduled deadline callback: `noTimer` = never armed (`maxDelay` falsy),
`armed` = `timerId` non-null and the callback still scheduled, `firedTimer` =
the callback ran (it set `timerId = null`), `clearedTimer` = the runner called
`clearTimeout` (and set no new timer). -/
inductive Deadline : Type where
  | noTimer : Deadline
  | armed : Deadline
  | firedTimer : Deadline
  | clearedTimer : Deadline
deriving DecidableEq, Repr

/-- Per-task state.  `outcome` is the value/error the caller-supplied factory
`fn` will settle with if it is ever invoked (`Sum.inl` = fulfil, `Sum.inr` =
reject).  `ran` records that the runner reached the `fn()` call;
`handlerDone` that the settlement handlers (`.then`/`.catch`) have run;
`ended` that those handlers called `quotaManager.end()`; `settleAttempts`
counts every `resolve`/`reject` call made on this task's promise. -/
structure TaskState : Type where
  promise : Promise
  settleAttempts : Nat
  deadline : Deadline
  ran : Bool
  handlerDone : Bool
  ended : Bool
  outcome : Sum Nat Nat
deriving DecidableEq, Repr

/-- Modelled from the spec: the `QuotaManager` contract of §4.1 with the
concurrency admission policy of §3 (`quota/quotaManager.ts` is not in the
analysed tree).  `start()` admits iff not closed and `activeCount` is below
the concurrency limit; `end()` decrements `activeCount`; `close()` is the
terminal transition.  `admissions`, `endCalls` and `closeCalls` are ghost
counters of successful `start()` calls, `end()` calls and `close()` calls. -/
structure QMState : Type where
  concurrency : Nat
  maxDelay : Nat
  activeCount : Nat
  closed : Bool
  admissions : Nat
  endCalls : Nat
  closeCalls : Nat
deriving DecidableEq, Repr

/-- `QuotaManager.start()`: returns whether one more operation may start,
incrementing `activeCount` on admission, with no state change on refusal. -/
def QMState.start (q : QMState) : Bool × QMState :=
  if q.closed then (false, q)
  else if q.activeCount < q.concurrency then
    (true, { q with activeCount := q.activeCount + 1, admissions := q.admissions + 1 })
  else (false, q)

/-- `QuotaManager.end()`: decrements `activeCount`. -/
def QMState.endOp (q : QMState) : QMState :=
  { q with activeCount := q.activeCount - 1, endCalls := q.endCalls + 1 }

/-- `QuotaManager.close()`: terminal; afterwards `start()` always refuses. -/
def QMState.close (q : QMState) : QMState :=
  { q with closed := true, closeCalls := q.closeCalls + 1 }

/-- The whole limiter instance: the closure state of `pRateLimit`
(`isClosed`, the manager, the FIFO `queue` of runner closures represented by
task ids, the fallback-timer handle `timerId` represented by `timerArmed`)
plus the per-task states.  `outstanding` is a ghost count of scheduled,
not-yet-fired fallback callbacks and `startLog` a ghost log of task ids in
the order their factories were invoked. -/
structure SysState : Type where
  isClosed : Bool
  qm : QMState
  queue : List Nat
  timerArmed : Bool
  outstanding : Nat
  tasks : List TaskState
  startLog : List Nat
deriving DecidableEq, Repr

/-- Head-indexed lookup in a task list (task ids are creation indices). -/
def nth? {α : Type} : List α → Nat → Option α
  | [], _ => none
  | a :: _, 0 => some a
  | _ :: l, n + 1 => nth? l n

/-- Update the element at an index, if present. -/
def updAt {α : Type} : Nat → (α → α) → List α → List α
  | _, _, [] => []
  | 0, f, a :: l => f a :: l
  | n + 1, f, a :: l => a :: updAt n f l

/-- A `resolve`/`reject` call on a task's promise: first settlement wins
(later calls are no-ops on the state, but are counted). -/
def attemptSettle (tid : Nat) (res : Promise) (s : SysState) : SysState :=
  { s with tasks := updAt tid (fun t =>
      { t with
          settleAttempts := t.settleAttempts + 1,
          promise := if t.promise = .pending then res else t.promise }) s.tasks }

/-- The body of the runner closure `run` up to and including the `fn()` call:
if `maxDelay` is truthy it clears the deadline timer when still armed and
otherwise returns at once (timeout already fired); then the factory is
invoked (`ran := true`, logged in `startLog`).  The `.then`/`.catch`
settlement handlers run later, as the `settle` event. -/
def runStep (tid : Nat) (s : SysState) : SysState :=
  match nth? s.tasks tid with
  | none => s
  | some t =>
    if s.qm.maxDelay ≠ 0 then
      if t.deadline = .armed then
        { s with
            tasks := updAt tid
              (fun u => { u with deadline := .clearedTimer, ran := true }) s.tasks,
            startLog := s.startLog ++ [tid] }
      else s
    else
      { s with
          tasks := updAt tid (fun u => { u with ran := true }) s.tasks,
          startLog := s.startLog ++ [tid] }

/-- The `while (!isClosed && queue.length && quotaManager.start())` loop of
`next()`: the queue contents are passed explicitly (the recursion is on the
list; the field is restored on exit). -/
def drainGo : List Nat → SysState → SysState
  | [], s => { s with queue := [] }
  | tid :: rest, s =>
    if s.isClosed then { s with queue := tid :: rest }
    else
      match s.qm.start with
      | (true, qm') => drainGo rest (runStep tid { s with qm := qm' })
      | (false, _) => { s with queue := tid :: rest }

/-- The scheduling loop `next()`: drain the queue while admission succeeds,
then arm the fallback poll timer iff the queue is still non-empty, nothing is
active, and no fallback timer is armed. -/
def nextFn (s : SysState) : SysState :=
  let d := drainGo s.queue s
  if d.queue ≠ [] ∧ d.qm.activeCount = 0 ∧ d.timerArmed = false then
    { d with timerArmed := true, outstanding := d.outstanding + 1 }
  else d

/-- The task created by `limiter` when the limiter is open: pending promise,
deadline timer armed iff `maxDelay` is truthy. -/
def newTask (maxDelay : Nat) (o : Sum Nat Nat) : TaskState :=
  { promise := .pending, settleAttempts := 0,
    deadline := if maxDelay ≠ 0 then .armed else .noTimer,
    ran := false, handlerDone := false, ended := false, outcome := o }

/-- The task record of a `limiter` call made after close: the executor throws
`AlreadyClosedError`, so the returned promise is created already rejected;
no timer is set and nothing is enqueued. -/
def closedTask (o : Sum Nat Nat) : TaskState :=
  { promise := .rejected .closed, settleAttempts := 1, deadline := .noTimer,
    ran := false, handlerDone := false, ended := false, outcome := o }

/-- A `limiter(fn)` call: reject at once when closed; otherwise create the
task, arm its deadline timer if `maxDelay` is truthy, push the runner onto
the queue and invoke `next()`. -/
def submitStep (o : Sum Nat Nat) (s : SysState) : SysState :=
  if s.isClosed then
    { s with tasks := s.tasks ++ [closedTask o] }
  else
    nextFn { s with
      tasks := s.tasks ++ [newTask s.qm.maxDelay o],
      queue := s.queue ++ [s.tasks.length] }

/-- `cleanupFn`: on the first call close the manager and mark the limiter
closed; afterwards return at once. -/
def cleanupStep (s : SysState) : SysState :=
  if s.isClosed then s
  else { s with qm := s.qm.close, isClosed := true }

/-- A task's deadline callback firing: set `timerId = null`, reject the
promise with the timeout error, re-invoke `next()`. -/
def deadlineFireStep (tid : Nat) (s : SysState) : SysState :=
  nextFn (attemptSettle tid (.rejected .timeout)
    { s with tasks := updAt tid (fun t => { t with deadline := .firedTimer }) s.tasks })

/-- The fallback poll timer firing: set `timerId = null`, re-invoke
`next()`. -/
def fallbackFireStep (s : SysState) : SysState :=
  nextFn { s with timerArmed := false, outstanding := s.outstanding - 1 }

/-- The settlement handlers chained onto `fn()`: call `quotaManager.end()`,
then resolve/reject the caller's promise with the task's own outcome
(verbatim), marking the handlers done. -/
def settleBody (tid : Nat) (t : TaskState) (s : SysState) : SysState :=
  let s1 := { s with qm := s.qm.endOp }
  let s2 := attemptSettle tid
    (match t.outcome with
     | .inl v => .fulfilled v
     | .inr e => .rejected (.taskErr e)) s1
  { s2 with
      tasks := updAt tid (fun u => { u with handlerDone := true, ended := true }) s2.tasks }

/-- The factory's promise settling: run the handlers, then the trailing
`.then(() => next())`. -/
def settleStep (tid : Nat) (s : SysState) : SysState :=
  match nth? s.tasks tid with
  | some t => nextFn (settleBody tid t s)
  | none => s

/-- The asynchronous occurrences of the system. -/
inductive Event : Type where
  | submit : Sum Nat Nat → Event
  | cleanup : Event
  | deadlineFire : Nat → Event
  | fallbackFire : Event
  | settle : Nat → Event
deriving DecidableEq, Repr

/-- Whether an event can occur: external calls always can; a deadline fires
only while its callback is scheduled; the fallback timer fires only while
scheduled; a factory's promise settles only after the factory was invoked
and only once. -/
def enabled : Event → SysState → Bool
  | .submit _, _ => true
  | .cleanup, _ => true
  | .deadlineFire tid, s =>
    match nth? s.tasks tid with
    | some t => decide (t.deadline = .armed)
    | none => false
  | .fallbackFire, s => decide (s.outstanding ≠ 0)
  | .settle tid, s =>
    match nth? s.tasks tid with
    | some t => t.ran && !t.handlerDone
    | none => false

/-- One event's callback, run to completion. -/
def step : Event → SysState → SysState
  | .submit o, s => submitStep o s
  | .cleanup, s => cleanupStep s
  | .deadlineFire tid, s => deadlineFireStep tid s
  | .fallbackFire, s => fallbackFireStep s
  | .settle tid, s => settleStep tid s

/-- Run a sequence of events; an event that is not enabled cannot occur and
is skipped. -/
def run : SysState → List Event → SysState
  | s, [] => s
  | s, e :: es => run (if enabled e s then step e s else s) es

/-- A fresh limiter over a fresh manager with the given concurrency limit and
`maxDelay`. -/
def init (conc maxDelay : Nat) : SysState :=
  { isClosed := false,
    qm := { concurrency := conc, maxDelay := maxDelay, activeCount := 0,
            closed := false, admissions := 0, endCalls := 0, closeCalls := 0 },
    queue := [], timerArmed := false, outstanding := 0, tasks := [], startLog := [] }

/-! ### Basic lemmas about `nth?` and `updAt` -/

theorem nth?_lt {α : Type} {l : List α} {n : Nat} {a : α}
    (h : nth? l n = some a) : n < l.length := by
  induction l generalizing n with
  | nil => simp [nth?] at h
  | cons x xs ih =>
    cases n with
    | zero => simp
    | succ m => simpa using Nat.succ_lt_succ (ih (by simpa [nth?] using h))

theorem exists_nth?_of_lt {α : Type} {l : List α} {n : Nat}
    (h : n < l.length) : ∃ a, nth? l n = some a := by
  induction l generalizing n with
  | nil => simp at h
  | cons x xs ih =>
    cases n with
    | zero => exact ⟨x, rfl⟩
    | succ m => exact ih (by simpa using Nat.lt_of_succ_lt_succ h)

theorem length_updAt {α : Type} (n : Nat) (f : α → α) (l : List α) :
    (updAt n f l).length = l.length := by
  induction l generalizing n with
  | nil => cases n <;> rfl
  | cons x xs ih => cases n <;> simp [updAt, ih]

theorem nth?_updAt_self {α : Type} (n : Nat) (f : α → α) (l : List α) :
    nth? (updAt n f l) n = (nth? l n).map f := by
  induction l generalizing n with
  | nil => cases n <;> rfl
  | cons x xs ih => cases n <;> simp [updAt, nth?, ih]

theorem nth?_updAt_ne {α : Type} {m n : Nat} (h : m ≠ n) (f : α → α) (l : List α) :
    nth? (updAt n f l) m = nth? l m := by
  induction l generalizing m n with
  | nil => cases n <;> rfl
  | cons x xs ih =>
    cases n with
    | zero => cases m with
      | zero => exact absurd rfl h
      | succ k => rfl
    | succ n' => cases m with
      | zero => rfl
      | succ k => exact ih (fun hk => h (by simp [hk]))

theorem nth?_append_lt {α : Type} {l l' : List α} {n : Nat}
    (h : n < l.length) : nth? (l ++ l') n = nth? l n := by
  induction l generalizing n with
  | nil => simp at h
  | cons x xs ih =>
    cases n with
    | zero => rfl
    | succ m => exact ih (by simpa using Nat.lt_of_succ_lt_succ h)

theorem nth?_append_len {α : Type} (l : List α) (a : α) :
    nth? (l ++ [a]) l.length = some a := by
  induction l with
  | nil => rfl
  | cons x xs ih => simpa [nth?] using ih

theorem nth?_append_sing_cases {α : Type} {l : List α} {a t : α} {n : Nat}
    (h : nth? (l ++ [a]) n = some t) :
    (n < l.length ∧ nth? l n = some t) ∨ (n = l.length ∧ t = a) := by
  induction l generalizing n with
  | nil =>
    cases n with
    | zero => exact Or.inr ⟨rfl, by simpa [nth?] using h.symm⟩
    | succ m => simp [nth?] at h
  | cons x xs ih =>
    cases n with
    | zero => exact Or.inl ⟨by simp, by simpa [nth?] using h⟩
    | succ m =>
      rcases ih (by simpa [nth?] using h) with ⟨h1, h2⟩ | ⟨h1, h2⟩
      · exact Or.inl ⟨by simpa using Nat.succ_lt_succ h1, h2⟩
      · exact Or.inr ⟨by simp [h1], h2⟩

/-! ### Lemmas about the QuotaManager operations -/

theorem QMState.start_true {q qm' : QMState} (h : q.start = (true, qm')) :
    q.closed = false ∧ q.activeCount < q.concurrency ∧
      qm' = { q with activeCount := q.activeCount + 1, admissions := q.admissions + 1 } := by
  unfold QMState.start at h
  cases hcl : q.closed with
  | true => rw [hcl] at h; simp at h
  | false =>
    rw [hcl] at h
    by_cases ha : q.activeCount < q.concurrency
    · simp [ha] at h
      exact ⟨rfl, ha, h.symm⟩
    · simp [ha] at h

theorem QMState.start_snd_false {q qm' : QMState} (h : q.start = (false, qm')) :
    qm' = q := by
  unfold QMState.start at h
  cases hcl : q.closed with
  | true => rw [hcl] at h; simp at h; exact h.symm
  | false =>
    rw [hcl] at h
    by_cases ha : q.activeCount < q.concurrency
    · simp [ha] at h
    · simp [ha] at h; exact h.symm

/-! ### Frame lemmas: what each transformer leaves untouched -/

theorem runStep_frame (tid : Nat) (s : SysState) :
    (runStep tid s).isClosed = s.isClosed ∧ (runStep tid s).qm = s.qm ∧
    (runStep tid s).queue = s.queue ∧ (runStep tid s).timerArmed = s.timerArmed ∧
    (runStep tid s).outstanding = s.outstanding ∧
    (runStep tid s).tasks.length = s.tasks.length := by
  rcases h : nth? s.tasks tid with _ | t
  · simp [runStep, h]
  · by_cases hm : s.qm.maxDelay = 0
    · simp [runStep, h, hm, length_updAt]
    · by_cases hd : t.deadline = Deadline.armed
      · simp [runStep, h, hm, hd, length_updAt]
      · simp [runStep, h, hm, hd]

theorem runStep_nth_other {tid' tid : Nat} (hne : tid ≠ tid') (s : SysState) :
    nth? (runStep tid' s).tasks tid = nth? s.tasks tid := by
  rcases h : nth? s.tasks tid' with _ | t
  · simp [runStep, h]
  · by_cases hm : s.qm.maxDelay = 0
    · simp [runStep, h, hm, nth?_updAt_ne hne]
    · by_cases hd : t.deadline = Deadline.armed
      · simp [runStep, h, hm, hd, nth?_updAt_ne hne]
      · simp [runStep, h, hm, hd]

theorem runStep_not_armed {s : SysState} {tid : Nat} {t : TaskState}
    (hmd : s.qm.maxDelay ≠ 0) (ht : nth? s.tasks tid = some t)
    (hd : t.deadline ≠ Deadline.armed) : runStep tid s = s := by
  simp [runStep, ht, hmd, hd]

theorem drainGo_frame (q : List Nat) : ∀ s : SysState,
    (drainGo q s).isClosed = s.isClosed ∧
    (drainGo q s).timerArmed = s.timerArmed ∧
    (drainGo q s).outstanding = s.outstanding ∧
    (drainGo q s).tasks.length = s.tasks.length ∧
    (drainGo q s).qm.closed = s.qm.closed ∧
    (drainGo q s).qm.closeCalls = s.qm.closeCalls ∧
    (drainGo q s).qm.maxDelay = s.qm.maxDelay ∧
    (drainGo q s).qm.endCalls = s.qm.endCalls := by
  induction q with
  | nil => intro s; simp [drainGo]
  | cons tid rest ih =>
    intro s
    by_cases hc : s.isClosed
    · simp [drainGo, hc]
    · rcases hst : s.qm.start with ⟨b, qm'⟩
      cases b
      · simp [drainGo, hc, hst]
      · obtain ⟨h1, h2, h3⟩ := QMState.start_true hst
        have hih := ih (runStep tid { s with qm := qm' })
        have hf := runStep_frame tid { s with qm := qm' }
        have hgo : drainGo (tid :: rest) s = drainGo rest (runStep tid { s with qm := qm' }) := by
          simp [drainGo, hc, hst]
        rw [hgo]
        simp only [h3] at hih hf ⊢
        obtain ⟨a1, a2, a3, a4, a5, a6, a7, a8⟩ := hih
        obtain ⟨b1, b2, b3, b4, b5, b6⟩ := hf
        simp_all

theorem drainGo_closed {s : SysState} (hc : s.isClosed = true) (q : List Nat) :
    drainGo q s = { s with queue := q } := by
  cases q with
  | nil => rfl
  | cons tid rest => simp [drainGo, hc]

theorem setQueue_self (s : SysState) : { s with queue := s.queue } = s := rfl

theorem nextFn_frame (s : SysState) :
    (nextFn s).isClosed = s.isClosed ∧ (nextFn s).tasks.length = s.tasks.length ∧
    (nextFn s).qm.closed = s.qm.closed ∧ (nextFn s).qm.closeCalls = s.qm.closeCalls ∧
    (nextFn s).qm.maxDelay = s.qm.maxDelay ∧ (nextFn s).qm.endCalls = s.qm.endCalls := by
  have h := drainGo_frame s.queue s
  by_cases hcond : ((drainGo s.queue s).queue ≠ [] ∧ (drainGo s.queue s).qm.activeCount = 0 ∧
      (drainGo s.queue s).timerArmed = false)
  · simp only [nextFn, hcond, if_true]
    simp_all
  · simp only [nextFn, hcond, if_false]
    simp_all

theorem drainGo_nth_frozen {t : TaskState} (hd : t.deadline ≠ Deadline.armed)
    (q : List Nat) : ∀ (s : SysState) (tid : Nat), s.qm.maxDelay ≠ 0 →
    nth? s.tasks tid = some t → nth? (drainGo q s).tasks tid = some t := by
  induction q with
  | nil => intro s tid hmd ht; simpa [drainGo] using ht
  | cons tid' rest ih =>
    intro s tid hmd ht
    by_cases hc : s.isClosed
    · simpa [drainGo, hc] using ht
    · rcases hst : s.qm.start with ⟨b, qm'⟩
      cases b
      · simpa [drainGo, hc, hst] using ht
      · obtain ⟨h1, h2, h3⟩ := QMState.start_true hst
        have hmd' : ({ s with qm := qm' } : SysState).qm.maxDelay ≠ 0 := by
          simp only [h3]; exact hmd
        have hgo : drainGo (tid' :: rest) s = drainGo rest (runStep tid' { s with qm := qm' }) := by
          simp [drainGo, hc, hst]
        rw [hgo]
        by_cases he : tid = tid'
        · subst he
          have heq : runStep tid { s with qm := qm' } = { s with qm := qm' } :=
            runStep_not_armed hmd' (by simpa using ht) hd
          rw [heq]
          exact ih { s with qm := qm' } tid hmd' (by simpa using ht)
        · refine ih (runStep tid' { s with qm := qm' }) tid ?_ ?_
          · have hf := (runStep_frame tid' { s with qm := qm' }).2.1
            rw [hf]; exact hmd'
          · rw [runStep_nth_other he]; simpa using ht

/-! ### The reachability invariant -/

/-- Consistency of one task record: how its deadline state, promise state,
run/handler flags and settlement count relate. -/
structure TaskOK (md : Nat) (t : TaskState) : Prop where
  noTimerZero : md = 0 → t.deadline = Deadline.noTimer
  armedProps : t.deadline = Deadline.armed →
    t.ran = false ∧ t.handlerDone = false ∧
    t.promise = Promise.pending ∧ t.settleAttempts = 0
  firedProps : t.deadline = Deadline.firedTimer →
    t.ran = false ∧ t.handlerDone = false ∧ t.ended = false ∧
    t.promise = Promise.rejected Err.timeout ∧ t.settleAttempts = 1
  ranClear : t.ran = true →
    t.deadline = Deadline.clearedTimer ∨ t.deadline = Deadline.noTimer
  ranPending : t.ran = true → t.handlerDone = false →
    t.promise = Promise.pending ∧ t.settleAttempts = 0
  doneProps : t.handlerDone = true →
    t.ran = true ∧ t.ended = true ∧ t.settleAttempts = 1
  endedDone : t.ended = true → t.handlerDone = true
  timeoutFired : t.promise = Promise.rejected Err.timeout →
    t.deadline = Deadline.firedTimer

/-- Consistency of a task record whose runner is still in the queue: its
factory has not run and it is either abandoned (fired deadline) or still
pending. -/
structure QueuedOK (t : TaskState) : Prop where
  notRan : t.ran = false
  notDone : t.handlerDone = false
  qstate : t.deadline = Deadline.firedTimer ∨
    (t.promise = Promise.pending ∧ t.settleAttempts = 0)

/-- The system invariant, with the pending-queue contents `q` passed as a
parameter so that it can be threaded through the `drainGo` loop (the loop
holds the not-yet-examined queue outside the state). -/
structure InvQ (s : SysState) (q : List Nat) : Prop where
  closedEq : s.qm.closed = s.isClosed
  closeOnce : s.qm.closeCalls = if s.isClosed = true then 1 else 0
  timerCount : s.outstanding = if s.timerArmed = true then 1 else 0
  queueSorted : q.Pairwise (· < ·)
  logSorted : s.startLog.Pairwise (· < ·)
  logLtQueue : ∀ a ∈ s.startLog, ∀ b ∈ q, a < b
  queueLt : ∀ b ∈ q, b < s.tasks.length
  logLt : ∀ a ∈ s.startLog, a < s.tasks.length
  tasksOK : ∀ j t, nth? s.tasks j = some t → TaskOK s.qm.maxDelay t
  queuedOK : ∀ tid ∈ q, ∀ t, nth? s.tasks tid = some t → QueuedOK t

/-- The invariant proper: `InvQ` at the state's own queue. -/
def Inv (s : SysState) : Prop := InvQ s s.queue

theorem invQ_set_queue {s : SysState} {q q' : List Nat} (h : InvQ s q) :
    InvQ { s with queue := q' } q :=
  ⟨h.closedEq, h.closeOnce, h.timerCount, h.queueSorted, h.logSorted, h.logLtQueue,
   h.queueLt, h.logLt, h.tasksOK, h.queuedOK⟩

theorem TaskOK.ended_false {md : Nat} {t : TaskState} (hok : TaskOK md t)
    (hd : t.handlerDone = false) : t.ended = false := by
  cases he : t.ended
  · rfl
  · exact absurd (hok.endedDone he) (by simp [hd])

/-- Starting an armed task (the runner clears the deadline timer and invokes
the factory) preserves per-task consistency. -/
theorem taskOK_startArmed {md : Nat} {t : TaskState} (hok : TaskOK md t)
    (ha : t.deadline = Deadline.armed) :
    TaskOK md { t with deadline := Deadline.clearedTimer, ran := true } := by
  obtain ⟨hr, hh, hp, hs⟩ := hok.armedProps ha
  have hmd : md ≠ 0 := fun h0 => by simp [hok.noTimerZero h0] at ha
  refine ⟨fun h0 => absurd h0 hmd, ?_, ?_, ?_, ?_, ?_, ?_, ?_⟩
  · intro h; simp at h
  · intro h; simp at h
  · intro _; exact Or.inl rfl
  · intro _ _; exact ⟨hp, hs⟩
  · intro h; simp only at h; simp [hh] at h
  · intro h; simp only at h; simp [hok.ended_false hh] at h
  · intro h; simp only at h; simp [hp] at h

/-- Starting a timer-less task (`maxDelay` falsy) preserves per-task
consistency. -/
theorem taskOK_startPlain {md : Nat} {t : TaskState} (hok : TaskOK md t)
    (hq : QueuedOK t) (hnt : t.deadline = Deadline.noTimer) :
    TaskOK md { t with ran := true } := by
  have hp : t.promise = Promise.pending ∧ t.settleAttempts = 0 := by
    rcases hq.qstate with hf | hp
    · rw [hnt] at hf; simp at hf
    · exact hp
  refine ⟨fun _ => hnt, ?_, ?_, ?_, ?_, ?_, ?_, ?_⟩
  · intro h; simp only at h; rw [hnt] at h; simp at h
  · intro h; simp only at h; rw [hnt] at h; simp at h
  · intro _; exact Or.inr hnt
  · intro _ _; exact hp
  · intro h; simp only at h; simp [hq.notDone] at h
  · intro h; simp only at h; simp [hok.ended_false hq.notDone] at h
  · intro h; simp only at h; simp [hp.1] at h

/-- The freshly created task of an open-limiter submission is consistent. -/
theorem taskOK_newTask (md : Nat) (o : Sum Nat Nat) : TaskOK md (newTask md o) := by
  refine ⟨?_, ?_, ?_, ?_, ?_, ?_, ?_, ?_⟩
  · intro h0; simp [newTask, h0]
  · intro _; exact ⟨rfl, rfl, rfl, rfl⟩
  · intro hcon; by_cases h0 : md = 0 <;> simp [newTask, h0] at hcon
  · intro hcon; simp [newTask] at hcon
  · intro hcon _; simp [newTask] at hcon
  · intro hcon; simp [newTask] at hcon
  · intro hcon; simp [newTask] at hcon
  · intro hcon; simp [newTask] at hcon

theorem queuedOK_newTask (md : Nat) (o : Sum Nat Nat) : QueuedOK (newTask md o) :=
  ⟨rfl, rfl, Or.inr ⟨rfl, rfl⟩⟩

/-- The already-rejected task of a closed-limiter submission is consistent. -/
theorem taskOK_closedTask (md : Nat) (o : Sum Nat Nat) : TaskOK md (closedTask o) := by
  refine ⟨?_, ?_, ?_, ?_, ?_, ?_, ?_, ?_⟩
  · intro _; rfl
  · intro hcon; simp [closedTask] at hcon
  · intro hcon; simp [closedTask] at hcon
  · intro hcon; simp [closedTask] at hcon
  · intro hcon _; simp [closedTask] at hcon
  · intro hcon; simp [closedTask] at hcon
  · intro hcon; simp [closedTask] at hcon
  · intro hcon; simp [closedTask] at hcon

/-- Firing the deadline of an armed task preserves per-task consistency. -/
theorem taskOK_fireAt {md : Nat} {t : TaskState} (hok : TaskOK md t)
    (ha : t.deadline = Deadline.armed) :
    TaskOK md { t with
                deadline := Deadline.firedTimer,
                settleAttempts := t.settleAttempts + 1,
                promise := if t.promise = Promise.pending
                  then Promise.rejected Err.timeout else t.promise } := by
  obtain ⟨hr, hh, hp, hs0⟩ := hok.armedProps ha
  have hmd : md ≠ 0 := fun h0 => by simp [hok.noTimerZero h0] at ha
  refine ⟨fun h0 => absurd h0 hmd, ?_, ?_, ?_, ?_, ?_, ?_, ?_⟩
  · intro hcon; simp at hcon
  · intro _; exact ⟨hr, hh, hok.ended_false hh, by simp [hp], by simp [hs0]⟩
  · intro hcon; simp only at hcon; simp [hr] at hcon
  · intro hcon _; simp only at hcon; simp [hr] at hcon
  · intro hcon; simp only at hcon; simp [hh] at hcon
  · intro hcon; simp only at hcon; simp [hok.ended_false hh] at hcon
  · intro _; rfl

theorem queuedOK_fireAt {md : Nat} {t : TaskState} (hok : TaskOK md t)
    (ha : t.deadline = Deadline.armed) :
    QueuedOK { t with
               deadline := Deadline.firedTimer,
               settleAttempts := t.settleAttempts + 1,
               promise := if t.promise = Promise.pending
                 then Promise.rejected Err.timeout else t.promise } := by
  obtain ⟨hr, hh, _, _⟩ := hok.armedProps ha
  exact ⟨hr, hh, Or.inl rfl⟩

/-- Running the settlement handlers of a running task preserves per-task
consistency, for any settlement other than the timeout rejection (the
handlers settle with the task's own outcome, never the timeout error). -/
theorem taskOK_settled {md : Nat} {t : TaskState} {res : Promise} (hok : TaskOK md t)
    (hran : t.ran = true) (hdone : t.handlerDone = false)
    (hres : res ≠ Promise.rejected Err.timeout) :
    TaskOK md { t with
                settleAttempts := t.settleAttempts + 1,
                promise := if t.promise = Promise.pending then res else t.promise,
                handlerDone := true, ended := true } := by
  obtain ⟨hp, hs0⟩ := hok.ranPending hran hdone
  refine ⟨?_, ?_, ?_, ?_, ?_, ?_, ?_, ?_⟩
  · intro h0; exact hok.noTimerZero h0
  · intro ha
    simp only at ha
    obtain ⟨hcon, _⟩ := hok.armedProps ha
    simp [hran] at hcon
  · intro hf
    simp only at hf
    obtain ⟨hcon, _⟩ := hok.firedProps hf
    simp [hran] at hcon
  · intro _; exact hok.ranClear hran
  · intro _ hcon; simp at hcon
  · intro _; exact ⟨hran, rfl, by simp [hs0]⟩
  · intro _; rfl
  · intro hcon
    simp only at hcon
    rw [hp] at hcon
    simp at hcon
    exact (hres hcon).elim

/-- One admitted iteration of the drain loop (a successful `start()` followed
by invoking the dequeued runner, which updates the dequeued task by `f` and
logs its start) preserves the invariant relative to the remaining queue. -/
theorem invQ_start_run {s : SysState} {tid : Nat} {rest : List Nat} {qm' : QMState}
    (h : InvQ s (tid :: rest))
    (hqm : qm' = { s.qm with
                   activeCount := s.qm.activeCount + 1,
                   admissions := s.qm.admissions + 1 })
    (f : TaskState → TaskState)
    (hok : ∀ t, nth? s.tasks tid = some t → TaskOK s.qm.maxDelay (f t)) :
    InvQ { s with
           qm := qm',
           tasks := updAt tid f s.tasks,
           startLog := s.startLog ++ [tid] } rest := by
  have hcons := List.pairwise_cons.mp h.queueSorted
  refine ⟨?_, ?_, h.timerCount, hcons.2, ?_, ?_, ?_, ?_, ?_, ?_⟩
  · rw [hqm]; exact h.closedEq
  · rw [hqm]; exact h.closeOnce
  · refine List.pairwise_append.mpr ⟨h.logSorted, by simp, ?_⟩
    intro a ha b hb
    rw [List.mem_singleton] at hb
    rw [hb]
    exact h.logLtQueue a ha tid (List.mem_cons_self _ _)
  · intro a ha b hb
    rcases List.mem_append.mp ha with ha' | ha'
    · exact h.logLtQueue a ha' b (List.mem_cons_of_mem _ hb)
    · rw [List.mem_singleton] at ha'; subst ha'
      exact hcons.1 b hb
  · intro b hb
    have : b < s.tasks.length := h.queueLt b (List.mem_cons_of_mem _ hb)
    simpa [length_updAt] using this
  · intro a ha
    rcases List.mem_append.mp ha with ha' | ha'
    · simpa [length_updAt] using h.logLt a ha'
    · rw [List.mem_singleton] at ha'; subst ha'
      simpa [length_updAt] using h.queueLt a (List.mem_cons_self _ _)
  · intro j u hu
    rw [hqm]
    by_cases hj : j = tid
    · subst hj
      rw [nth?_updAt_self] at hu
      rcases hmap : nth? s.tasks j with _ | t0
      · rw [hmap] at hu; simp at hu
      · rw [hmap] at hu; simp at hu
        rw [← hu]
        exact hok t0 hmap
    · rw [nth?_updAt_ne hj] at hu
      exact h.tasksOK j u hu
  · intro tid' hmem u hu
    have hne : tid' ≠ tid := by
      intro he; subst he
      exact absurd (hcons.1 tid' hmem) (lt_irrefl _)
    rw [nth?_updAt_ne hne] at hu
    exact h.queuedOK tid' (List.mem_cons_of_mem _ hmem) u hu

/-- A successful `start()` whose dequeued runner turns out to be a no-op (an
abandoned entry) still preserves the invariant relative to the remaining
queue. -/
theorem invQ_start_skip {s : SysState} {tid : Nat} {rest : List Nat} {qm' : QMState}
    (h : InvQ s (tid :: rest))
    (hqm : qm' = { s.qm with
                   activeCount := s.qm.activeCount + 1,
                   admissions := s.qm.admissions + 1 }) :
    InvQ { s with qm := qm' } rest := by
  have hcons := List.pairwise_cons.mp h.queueSorted
  refine ⟨?_, ?_, h.timerCount, hcons.2, h.logSorted, ?_, ?_, h.logLt, ?_, ?_⟩
  · rw [hqm]; exact h.closedEq
  · rw [hqm]; exact h.closeOnce
  · intro a ha b hb
    exact h.logLtQueue a ha b (List.mem_cons_of_mem _ hb)
  · intro b hb
    exact h.queueLt b (List.mem_cons_of_mem _ hb)
  · intro j u hu
    rw [hqm]
    exact h.tasksOK j u hu
  · intro tid' hmem u hu
    exact h.queuedOK tid' (List.mem_cons_of_mem _ hmem) u hu

/-- The drain loop preserves the invariant. -/
theorem invQ_drainGo (q : List Nat) : ∀ s : SysState, InvQ s q → Inv (drainGo q s) := by
  induction q with
  | nil =>
    intro s h
    exact invQ_set_queue h
  | cons tid rest ih =>
    intro s h
    by_cases hc : s.isClosed
    · have hgo : drainGo (tid :: rest) s = { s with queue := tid :: rest } := by
        simp [drainGo, hc]
      rw [hgo]; exact invQ_set_queue h
    · rcases hst : s.qm.start with ⟨b, qm'⟩
      cases b
      · have hgo : drainGo (tid :: rest) s = { s with queue := tid :: rest } := by
          simp [drainGo, hc, hst]
        rw [hgo]; exact invQ_set_queue h
      · obtain ⟨hcl, hlt, hqm⟩ := QMState.start_true hst
        have hgo : drainGo (tid :: rest) s =
            drainGo rest (runStep tid { s with qm := qm' }) := by
          simp [drainGo, hc, hst]
        rw [hgo]
        apply ih
        have htid : tid < s.tasks.length := h.queueLt tid (List.mem_cons_self _ _)
        obtain ⟨t, ht⟩ := exists_nth?_of_lt htid
        have hqok := h.queuedOK tid (List.mem_cons_self _ _) t ht
        have htok := h.tasksOK tid t ht
        have ht' : nth? ({ s with qm := qm' } : SysState).tasks tid = some t := ht
        by_cases hmd : s.qm.maxDelay = 0
        · have hq5 : qm'.maxDelay = 0 := by rw [hqm]; exact hmd
          have hr : runStep tid { s with qm := qm' } =
              { s with
                qm := qm',
                tasks := updAt tid (fun u => { u with ran := true }) s.tasks,
                startLog := s.startLog ++ [tid] } := by
            simp [runStep, ht, hq5]
          rw [hr]
          refine invQ_start_run h hqm _ ?_
          intro t0 ht0
          rw [ht] at ht0
          injection ht0 with ht0
          subst ht0
          exact taskOK_startPlain htok hqok (htok.noTimerZero hmd)
        · have hq5 : qm'.maxDelay ≠ 0 := by rw [hqm]; exact hmd
          have hmd' : ({ s with qm := qm' } : SysState).qm.maxDelay ≠ 0 := hq5
          by_cases hda : t.deadline = Deadline.armed
          · have hr : runStep tid { s with qm := qm' } =
                { s with
                  qm := qm',
                  tasks := updAt tid
                    (fun u => { u with deadline := Deadline.clearedTimer, ran := true })
                    s.tasks,
                  startLog := s.startLog ++ [tid] } := by
              simp [runStep, ht, hq5, hda]
            rw [hr]
            refine invQ_start_run h hqm _ ?_
            intro t0 ht0
            rw [ht] at ht0
            injection ht0 with ht0
            subst ht0
            exact taskOK_startArmed htok hda
          · have hr : runStep tid { s with qm := qm' } = { s with qm := qm' } :=
              runStep_not_armed hmd' ht' hda
            rw [hr]
            exact invQ_start_skip h hqm

/-- The scheduling loop preserves the invariant. -/
theorem inv_nextFn {s : SysState} (h : Inv s) : Inv (nextFn s) := by
  have hd : Inv (drainGo s.queue s) := invQ_drainGo s.queue s h
  by_cases hcond : ((drainGo s.queue s).queue ≠ [] ∧
      (drainGo s.queue s).qm.activeCount = 0 ∧ (drainGo s.queue s).timerArmed = false)
  · have hn : nextFn s = { drainGo s.queue s with
        timerArmed := true, outstanding := (drainGo s.queue s).outstanding + 1 } := by
      simp only [nextFn]
      rw [if_pos hcond]
    rw [hn]
    refine ⟨hd.closedEq, hd.closeOnce, ?_, hd.queueSorted, hd.logSorted,
      hd.logLtQueue, hd.queueLt, hd.logLt, hd.tasksOK, hd.queuedOK⟩
    rw [hd.timerCount, hcond.2.2]
    simp
  · have hn : nextFn s = drainGo s.queue s := by
      simp only [nextFn]
      rw [if_neg hcond]
    rw [hn]
    exact hd

/-- A `limiter` call preserves the invariant. -/
theorem inv_submit {s : SysState} (h : Inv s) (o : Sum Nat Nat) :
    Inv (submitStep o s) := by
  by_cases hc : s.isClosed
  · have he : submitStep o s = { s with tasks := s.tasks ++ [closedTask o] } := by
      simp [submitStep, hc]
    rw [he]
    refine ⟨h.closedEq, h.closeOnce, h.timerCount, h.queueSorted, h.logSorted,
      h.logLtQueue, ?_, ?_, ?_, ?_⟩
    · intro b hb
      simp only [List.length_append, List.length_cons, List.length_nil]
      exact Nat.lt_succ_of_lt (h.queueLt b hb)
    · intro a ha
      simp only [List.length_append, List.length_cons, List.length_nil]
      exact Nat.lt_succ_of_lt (h.logLt a ha)
    · intro j u hu
      rcases nth?_append_sing_cases hu with ⟨_, hj⟩ | ⟨_, hu'⟩
      · exact h.tasksOK j u hj
      · rw [hu']; exact taskOK_closedTask _ o
    · intro tid hmem u hu
      rw [nth?_append_lt (h.queueLt tid hmem)] at hu
      exact h.queuedOK tid hmem u hu
  · have he : submitStep o s = nextFn { s with
        tasks := s.tasks ++ [newTask s.qm.maxDelay o],
        queue := s.queue ++ [s.tasks.length] } := by
      simp [submitStep, hc]
    rw [he]
    apply inv_nextFn
    refine ⟨h.closedEq, h.closeOnce, h.timerCount, ?_, h.logSorted, ?_, ?_, ?_, ?_, ?_⟩
    · refine List.pairwise_append.mpr ⟨h.queueSorted, by simp, ?_⟩
      intro a ha b hb
      rw [List.mem_singleton] at hb
      rw [hb]
      exact h.queueLt a ha
    · intro a ha b hb
      rcases List.mem_append.mp hb with hb' | hb'
      · exact h.logLtQueue a ha b hb'
      · rw [List.mem_singleton] at hb'
        rw [hb']
        exact h.logLt a ha
    · intro b hb
      simp only [List.length_append, List.length_cons, List.length_nil]
      rcases List.mem_append.mp hb with hb' | hb'
      · exact Nat.lt_succ_of_lt (h.queueLt b hb')
      · rw [List.mem_singleton] at hb'
        rw [hb']
        exact Nat.lt_succ_self _
    · intro a ha
      simp only [List.length_append, List.length_cons, List.length_nil]
      exact Nat.lt_succ_of_lt (h.logLt a ha)
    · intro j u hu
      rcases nth?_append_sing_cases hu with ⟨_, hj⟩ | ⟨_, hu'⟩
      · exact h.tasksOK j u hj
      · rw [hu']; exact taskOK_newTask _ o
    · intro tid hmem u hu
      rcases List.mem_append.mp hmem with hm | hm
      · rw [nth?_append_lt (h.queueLt tid hm)] at hu
        exact h.queuedOK tid hm u hu
      · rw [List.mem_singleton] at hm
        rw [hm] at hu
        rw [nth?_append_len] at hu
        injection hu with hu
        rw [← hu]
        exact queuedOK_newTask _ o

/-- A `cleanup` call preserves the invariant. -/
theorem inv_cleanup {s : SysState} (h : Inv s) : Inv (cleanupStep s) := by
  by_cases hc : s.isClosed
  · have he : cleanupStep s = s := by simp [cleanupStep, hc]
    rw [he]; exact h
  · have he : cleanupStep s = { s with qm := s.qm.close, isClosed := true } := by
      simp [cleanupStep, hc]
    rw [he]
    have hcc : s.qm.closeCalls = 0 := by
      have := h.closeOnce
      rwa [if_neg hc] at this
    refine ⟨?_, ?_, h.timerCount, h.queueSorted, h.logSorted, h.logLtQueue,
      h.queueLt, h.logLt, ?_, h.queuedOK⟩
    · simp [QMState.close]
    · simp [QMState.close, hcc]
    · intro j u hu
      exact h.tasksOK j u hu

/-- A deadline firing preserves the invariant. -/
theorem inv_deadlineFire {s : SysState} {tid : Nat} (h : Inv s)
    (hen : enabled (Event.deadlineFire tid) s = true) :
    Inv (deadlineFireStep tid s) := by
  rcases hmt : nth? s.tasks tid with _ | t
  · simp [enabled, hmt] at hen
  · have harmed : t.deadline = Deadline.armed := by
      simpa [enabled, hmt] using hen
    have htok := h.tasksOK tid t hmt
    unfold deadlineFireStep
    apply inv_nextFn
    have hbody : attemptSettle tid (Promise.rejected Err.timeout)
        { s with
          tasks := updAt tid
                     (fun u => { u with deadline := Deadline.firedTimer }) s.tasks } =
        { s with
          tasks := updAt tid
                     (fun u => { u with
                                 settleAttempts := u.settleAttempts + 1,
                                 promise := if u.promise = Promise.pending
                                   then Promise.rejected Err.timeout else u.promise })
                     (updAt tid
                       (fun u => { u with deadline := Deadline.firedTimer }) s.tasks) } := rfl
    rw [hbody]
    refine ⟨h.closedEq, h.closeOnce, h.timerCount, h.queueSorted, h.logSorted,
      h.logLtQueue, ?_, ?_, ?_, ?_⟩
    · intro b hb
      simpa [length_updAt] using h.queueLt b hb
    · intro a ha
      simpa [length_updAt] using h.logLt a ha
    · intro j u hu
      by_cases hj : j = tid
      · rw [hj] at hu
        rw [nth?_updAt_self, nth?_updAt_self, hmt] at hu
        simp at hu
        rw [← hu]
        exact taskOK_fireAt htok harmed
      · rw [nth?_updAt_ne hj, nth?_updAt_ne hj] at hu
        exact h.tasksOK j u hu
    · intro tid' hmem u hu
      by_cases hj : tid' = tid
      · rw [hj] at hu
        rw [nth?_updAt_self, nth?_updAt_self, hmt] at hu
        simp at hu
        rw [← hu]
        exact queuedOK_fireAt htok harmed
      · rw [nth?_updAt_ne hj, nth?_updAt_ne hj] at hu
        exact h.queuedOK tid' hmem u hu

/-- The fallback timer firing preserves the invariant. -/
theorem inv_fallbackFire {s : SysState} (h : Inv s)
    (hen : enabled Event.fallbackFire s = true) : Inv (fallbackFireStep s) := by
  have hout : s.outstanding ≠ 0 := by simpa [enabled] using hen
  have harm : s.timerArmed = true := by
    cases ht : s.timerArmed
    · rw [h.timerCount, ht] at hout; simp at hout
    · rfl
  unfold fallbackFireStep
  apply inv_nextFn
  refine ⟨h.closedEq, h.closeOnce, ?_, h.queueSorted, h.logSorted, h.logLtQueue,
    h.queueLt, h.logLt, h.tasksOK, h.queuedOK⟩
  rw [h.timerCount, harm]
  simp

/-- A task settlement preserves the invariant. -/
theorem inv_settle {s : SysState} {tid : Nat} (h : Inv s)
    (hen : enabled (Event.settle tid) s = true) : Inv (settleStep tid s) := by
  rcases hmt : nth? s.tasks tid with _ | t
  · simp [enabled, hmt] at hen
  · have hrd : t.ran = true ∧ t.handlerDone = false := by
      simpa [enabled, hmt] using hen
    obtain ⟨hran, hdone⟩ := hrd
    have htok := h.tasksOK tid t hmt
    have hst : settleStep tid s = nextFn (settleBody tid t s) := by
      simp [settleStep, hmt]
    rw [hst]
    apply inv_nextFn
    have hbody : settleBody tid t s = { s with
        qm := s.qm.endOp,
        tasks := updAt tid (fun u => { u with handlerDone := true, ended := true })
          (updAt tid (fun u =>
            { u with
                settleAttempts := u.settleAttempts + 1,
                promise := if u.promise = Promise.pending
                  then (match t.outcome with
                        | Sum.inl v => Promise.fulfilled v
                        | Sum.inr e => Promise.rejected (Err.taskErr e))
                  else u.promise }) s.tasks) } := rfl
    rw [hbody]
    refine ⟨?_, ?_, h.timerCount, h.queueSorted, h.logSorted, h.logLtQueue,
      ?_, ?_, ?_, ?_⟩
    · simpa [QMState.endOp] using h.closedEq
    · simpa [QMState.endOp] using h.closeOnce
    · intro b hb
      simpa [length_updAt] using h.queueLt b hb
    · intro a ha
      simpa [length_updAt] using h.logLt a ha
    · intro j u hu
      by_cases hj : j = tid
      · rw [hj] at hu
        rw [nth?_updAt_self, nth?_updAt_self, hmt] at hu
        simp at hu
        rw [← hu]
        have hres : (match t.outcome with
            | Sum.inl v => Promise.fulfilled v
            | Sum.inr e => Promise.rejected (Err.taskErr e)) ≠
            Promise.rejected Err.timeout := by
          rcases t.outcome with v | e <;> simp
        exact taskOK_settled htok hran hdone hres
      · rw [nth?_updAt_ne hj, nth?_updAt_ne hj] at hu
        exact h.tasksOK j u hu
    · intro tid' hmem u hu
      by_cases hj : tid' = tid
      · rw [hj] at hmem
        have := (h.queuedOK tid hmem t hmt).notRan
        rw [hran] at this
        simp at this
      · rw [nth?_updAt_ne hj, nth?_updAt_ne hj] at hu
        exact h.queuedOK tid' hmem u hu

/-- Any (guarded) event preserves the invariant. -/
theorem inv_step (e : Event) {s : SysState} (h : Inv s) :
    Inv (if enabled e s then step e s else s) := by
  by_cases hen : enabled e s
  · rw [if_pos hen]
    cases e with
    | submit o => exact inv_submit h o
    | cleanup => exact inv_cleanup h
    | deadlineFire tid => exact inv_deadlineFire h hen
    | fallbackFire => exact inv_fallbackFire h hen
    | settle tid => exact inv_settle h hen
  · rw [if_neg hen]
    exact h

/-- Any event sequence preserves the invariant. -/
theorem inv_run (es : List Event) : ∀ s : SysState, Inv s → Inv (run s es) := by
  induction es with
  | nil => intro s h; exact h
  | cons e es ih => intro s h; exact ih _ (inv_step e h)

/-- A fresh limiter satisfies the invariant. -/
theorem inv_init (c d : Nat) : Inv (init c d) := by
  refine ⟨rfl, rfl, rfl, ?_, ?_, ?_, ?_, ?_, ?_, ?_⟩
  · simp [init]
  · simp [init]
  · intro a ha; simp [init] at ha
  · intro b hb; simp [init] at hb
  · intro a ha; simp [init] at ha
  · intro j u hu; simp [init, nth?] at hu
  · intro tid hmem; simp [init] at hmem

/-! ### Unfolding and persistence lemmas -/

theorem attemptSettle_tasks (tid : Nat) (res : Promise) (s : SysState) :
    (attemptSettle tid res s).tasks = updAt tid (fun u =>
      { u with
          settleAttempts := u.settleAttempts + 1,
          promise := if u.promise = Promise.pending then res else u.promise }) s.tasks := rfl

theorem settleBody_tasks (tid : Nat) (t : TaskState) (s : SysState) :
    (settleBody tid t s).tasks =
      updAt tid (fun u => { u with handlerDone := true, ended := true })
        (updAt tid (fun u =>
          { u with
              settleAttempts := u.settleAttempts + 1,
              promise := if u.promise = Promise.pending
                then (match t.outcome with
                      | Sum.inl v => Promise.fulfilled v
                      | Sum.inr e => Promise.rejected (Err.taskErr e))
                else u.promise }) s.tasks) := rfl

theorem deadlineFireStep_eq (tid : Nat) (s : SysState) :
    deadlineFireStep tid s = nextFn (attemptSettle tid (Promise.rejected Err.timeout)
      { s with
        tasks := updAt tid
                   (fun u => { u with deadline := Deadline.firedTimer }) s.tasks }) := rfl

theorem nextFn_tasks (s : SysState) :
    (nextFn s).tasks = (drainGo s.queue s).tasks := by
  by_cases hcond : ((drainGo s.queue s).queue ≠ [] ∧
      (drainGo s.queue s).qm.activeCount = 0 ∧ (drainGo s.queue s).timerArmed = false)
  · simp only [nextFn]; rw [if_pos hcond]
  · simp only [nextFn]; rw [if_neg hcond]

/-- On a closed limiter the scheduling loop moves nothing: it can only arm
the fallback timer. -/
theorem nextFn_closed {s : SysState} (hc : s.isClosed = true) :
    (nextFn s).queue = s.queue ∧ (nextFn s).tasks = s.tasks ∧
    (nextFn s).isClosed = true ∧ (nextFn s).qm = s.qm := by
  have hd : drainGo s.queue s = s := by rw [drainGo_closed hc]
  by_cases hcond : (s.queue ≠ [] ∧ s.qm.activeCount = 0 ∧ s.timerArmed = false)
  · have hn : nextFn s = { s with timerArmed := true, outstanding := s.outstanding + 1 } := by
      simp only [nextFn, hd]
      rw [if_pos hcond]
    rw [hn]
    exact ⟨rfl, rfl, hc, rfl⟩
  · have hn : nextFn s = s := by
      simp only [nextFn, hd]
      rw [if_neg hcond]
    rw [hn]
    exact ⟨rfl, rfl, hc, rfl⟩

theorem settleBody_isClosed (tid : Nat) (t : TaskState) (s : SysState) :
    (settleBody tid t s).isClosed = s.isClosed := rfl

/-- Only a `cleanup` call changes the closed flag, and it sets it. -/
theorem step_isClosed (e : Event) (s : SysState) :
    (step e s).isClosed = (s.isClosed || decide (e = Event.cleanup)) := by
  cases e with
  | submit o =>
    simp only [step]
    by_cases hc : s.isClosed
    · have he : submitStep o s = { s with tasks := s.tasks ++ [closedTask o] } := by
        simp [submitStep, hc]
      rw [he]; simp [hc]
    · have he : submitStep o s = nextFn { s with
          tasks := s.tasks ++ [newTask s.qm.maxDelay o],
          queue := s.queue ++ [s.tasks.length] } := by
        simp [submitStep, hc]
      rw [he, (nextFn_frame _).1]
      simp
  | cleanup =>
    simp only [step, cleanupStep]
    by_cases hc : s.isClosed
    · rw [if_pos hc]; simp [hc]
    · rw [if_neg hc]; simp
  | deadlineFire tid =>
    simp only [step, deadlineFireStep]
    rw [(nextFn_frame _).1]
    simp [attemptSettle]
  | fallbackFire =>
    simp only [step, fallbackFireStep]
    rw [(nextFn_frame _).1]
    simp
  | settle tid =>
    simp only [step, settleStep]
    rcases hmt : nth? s.tasks tid with _ | t
    · simp
    · rw [(nextFn_frame _).1, settleBody_isClosed]
      simp

theorem guarded_isClosed (e : Event) (s : SysState) :
    (if enabled e s then step e s else s).isClosed =
      (s.isClosed || decide (e = Event.cleanup)) := by
  by_cases hen : enabled e s
  · rw [if_pos hen, step_isClosed]
  · rw [if_neg hen]
    cases e with
    | submit o => simp [enabled] at hen
    | cleanup => simp [enabled] at hen
    | deadlineFire tid => simp
    | fallbackFire => simp
    | settle tid => simp

/-- The limiter is closed after a trace iff the trace contains a `cleanup`. -/
theorem isClosed_run (es : List Event) : ∀ s : SysState,
    (run s es).isClosed = (s.isClosed || decide (Event.cleanup ∈ es)) := by
  induction es with
  | nil => intro s; simp [run]
  | cons e es ih =>
    intro s
    show (run (if enabled e s then step e s else s) es).isClosed = _
    rw [ih, guarded_isClosed]
    by_cases he : e = Event.cleanup
    · rw [he]; simp [List.mem_cons]
    · have hne : ¬(Event.cleanup = e) := fun h => he h.symm
      simp [List.mem_cons, hne, he]

/-- On a closed limiter, one event leaves the queue untouched and leaves any
queued, timer-less, never-run task record exactly as it is. -/
theorem closed_frozen_step (e : Event) {s : SysState} {tid : Nat} {t : TaskState}
    (hc : s.isClosed = true) (ht : nth? s.tasks tid = some t)
    (hnd : t.deadline ≠ Deadline.armed) (hnr : t.ran = false) :
    (run s [e]).isClosed = true ∧ (run s [e]).queue = s.queue ∧
    nth? (run s [e]).tasks tid = some t := by
  have hrun : run s [e] = if enabled e s then step e s else s := rfl
  rw [hrun]
  by_cases hen : enabled e s
  · rw [if_pos hen]
    cases e with
    | submit o =>
      simp only [step]
      have he : submitStep o s = { s with tasks := s.tasks ++ [closedTask o] } := by
        simp [submitStep, hc]
      rw [he]
      exact ⟨hc, rfl, by rw [nth?_append_lt (nth?_lt ht)]; exact ht⟩
    | cleanup =>
      simp only [step]
      have he : cleanupStep s = s := by simp [cleanupStep, hc]
      rw [he]
      exact ⟨hc, rfl, ht⟩
    | deadlineFire tid' =>
      simp only [step]
      rcases hmt' : nth? s.tasks tid' with _ | t'
      · simp [enabled, hmt'] at hen
      · have harmed : t'.deadline = Deadline.armed := by
          simpa [enabled, hmt'] using hen
        have hne : tid ≠ tid' := by
          intro hEq
          rw [← hEq, ht] at hmt'
          injection hmt' with hh
          rw [hh] at hnd
          exact hnd harmed
        rw [deadlineFireStep_eq]
        have hXc : (attemptSettle tid' (Promise.rejected Err.timeout)
            { s with
              tasks := updAt tid'
                         (fun u => { u with deadline := Deadline.firedTimer })
                         s.tasks }).isClosed = true := hc
        obtain ⟨hq, htk, hcl, _⟩ := nextFn_closed hXc
        refine ⟨hcl, hq, ?_⟩
        rw [htk, attemptSettle_tasks]
        show nth? (updAt tid' _ (updAt tid'
          (fun u => { u with deadline := Deadline.firedTimer }) s.tasks)) tid = some t
        rw [nth?_updAt_ne hne, nth?_updAt_ne hne]
        exact ht
    | fallbackFire =>
      simp only [step, fallbackFireStep]
      have hXc : ({ s with
          timerArmed := false,
          outstanding := s.outstanding - 1 } : SysState).isClosed = true := hc
      obtain ⟨hq, htk, hcl, _⟩ := nextFn_closed hXc
      exact ⟨hcl, hq, by rw [htk]; exact ht⟩
    | settle tid' =>
      simp only [step]
      rcases hmt' : nth? s.tasks tid' with _ | t'
      · simp [enabled, hmt'] at hen
      · have hrd : t'.ran = true ∧ t'.handlerDone = false := by
          simpa [enabled, hmt'] using hen
        have hne : tid ≠ tid' := by
          intro hEq
          rw [← hEq, ht] at hmt'
          injection hmt' with hh
          rw [← hh] at hrd
          rw [hnr] at hrd
          exact absurd hrd.1 (by simp)
        have hse : settleStep tid' s = nextFn (settleBody tid' t' s) := by
          simp [settleStep, hmt']
        rw [hse]
        have hXc : (settleBody tid' t' s).isClosed = true := hc
        obtain ⟨hq, htk, hcl, _⟩ := nextFn_closed hXc
        refine ⟨hcl, hq, ?_⟩
        rw [htk, settleBody_tasks]
        rw [nth?_updAt_ne hne, nth?_updAt_ne hne]
        exact ht
  · rw [if_neg hen]
    exact ⟨hc, rfl, ht⟩

/-- On a closed limiter, no event sequence dequeues anything or touches a
queued, timer-less, never-run task. -/
theorem closed_frozen_run (es : List Event) : ∀ (s : SysState) (tid : Nat) (t : TaskState),
    s.isClosed = true → nth? s.tasks tid = some t →
    t.deadline ≠ Deadline.armed → t.ran = false →
    (run s es).isClosed = true ∧ (run s es).queue = s.queue ∧
    nth? (run s es).tasks tid = some t := by
  induction es with
  | nil => intro s tid t hc ht _ _; exact ⟨hc, rfl, ht⟩
  | cons e es ih =>
    intro s tid t hc ht hnd hnr
    obtain ⟨h1, h2, h3⟩ := closed_frozen_step e hc ht hnd hnr
    have hstep : run s [e] = if enabled e s then step e s else s := rfl
    rw [hstep] at h1 h2 h3
    obtain ⟨g1, g2, g3⟩ := ih (if enabled e s then step e s else s) tid t h1 h3 hnd hnr
    show (run (if enabled e s then step e s else s) es).isClosed = true ∧
      (run (if enabled e s then step e s else s) es).queue = s.queue ∧
      nth? (run (if enabled e s then step e s else s) es).tasks tid = some t
    exact ⟨g1, by rw [g2, h2], g3⟩

/-- A task whose deadline has fired is frozen: no later event changes its
record (its factory never runs, its promise is never settled again). -/
theorem fired_step (e : Event) {s : SysState} {tid : Nat} {t : TaskState}
    (hInv : Inv s) (ht : nth? s.tasks tid = some t)
    (hf : t.deadline = Deadline.firedTimer) :
    nth? (run s [e]).tasks tid = some t := by
  have hmd : s.qm.maxDelay ≠ 0 := by
    intro h0
    have hnt := (hInv.tasksOK tid t ht).noTimerZero h0
    rw [hnt] at hf
    simp at hf
  have hnd : t.deadline ≠ Deadline.armed := by rw [hf]; simp
  have hnr : t.ran = false := ((hInv.tasksOK tid t ht).firedProps hf).1
  have hrun : run s [e] = if enabled e s then step e s else s := rfl
  rw [hrun]
  by_cases hen : enabled e s
  · rw [if_pos hen]
    cases e with
    | submit o =>
      simp only [step]
      by_cases hc : s.isClosed
      · have he : submitStep o s = { s with tasks := s.tasks ++ [closedTask o] } := by
          simp [submitStep, hc]
        rw [he]
        rw [nth?_append_lt (nth?_lt ht)]
        exact ht
      · have he : submitStep o s = nextFn { s with
            tasks := s.tasks ++ [newTask s.qm.maxDelay o],
            queue := s.queue ++ [s.tasks.length] } := by
          simp [submitStep, hc]
        rw [he, nextFn_tasks]
        apply drainGo_nth_frozen hnd
        · exact hmd
        · show nth? (s.tasks ++ [newTask s.qm.maxDelay o]) tid = some t
          rw [nth?_append_lt (nth?_lt ht)]
          exact ht
    | cleanup =>
      simp only [step, cleanupStep]
      by_cases hc : s.isClosed
      · rw [if_pos hc]; exact ht
      · rw [if_neg hc]; exact ht
    | deadlineFire tid' =>
      simp only [step]
      rcases hmt' : nth? s.tasks tid' with _ | t'
      · simp [enabled, hmt'] at hen
      · have harmed : t'.deadline = Deadline.armed := by
          simpa [enabled, hmt'] using hen
        have hne : tid ≠ tid' := by
          intro hEq
          rw [← hEq, ht] at hmt'
          injection hmt' with hh
          rw [hh] at hnd
          exact hnd harmed
        rw [deadlineFireStep_eq, nextFn_tasks]
        apply drainGo_nth_frozen hnd
        · exact hmd
        · rw [attemptSettle_tasks]
          show nth? (updAt tid' _ (updAt tid'
            (fun u => { u with deadline := Deadline.firedTimer }) s.tasks)) tid = some t
          rw [nth?_updAt_ne hne, nth?_updAt_ne hne]
          exact ht
    | fallbackFire =>
      simp only [step, fallbackFireStep]
      rw [nextFn_tasks]
      apply drainGo_nth_frozen hnd
      · exact hmd
      · exact ht
    | settle tid' =>
      simp only [step]
      rcases hmt' : nth? s.tasks tid' with _ | t'
      · simp [enabled, hmt'] at hen
      · have hrd : t'.ran = true ∧ t'.handlerDone = false := by
          simpa [enabled, hmt'] using hen
        have hne : tid ≠ tid' := by
          intro hEq
          rw [← hEq, ht] at hmt'
          injection hmt' with hh
          rw [← hh] at hrd
          rw [hnr] at hrd
          exact absurd hrd.1 (by simp)
        have hse : settleStep tid' s = nextFn (settleBody tid' t' s) := by
          simp [settleStep, hmt']
        rw [hse, nextFn_tasks]
        apply drainGo_nth_frozen hnd
        · exact hmd
        · rw [settleBody_tasks]
          rw [nth?_updAt_ne hne, nth?_updAt_ne hne]
          exact ht
  · rw [if_neg hen]
    exact ht

/-- A task whose deadline has fired stays frozen under any event sequence. -/
theorem fired_run (es : List Event) {tid : Nat} {t : TaskState} :
    ∀ s : SysState, Inv s → nth? s.tasks tid = some t →
    t.deadline = Deadline.firedTimer → nth? (run s es).tasks tid = some t := by
  induction es with
  | nil => intro s _ ht _; exact ht
  | cons e es ih =>
    intro s hInv ht hf
    show nth? (run (if enabled e s then step e s else s) es).tasks tid = some t
    exact ih _ (inv_step e hInv) (fired_step e hInv ht hf) hf

/-! ### The claims -/

/-- C2: the scheduling loop `next()` dequeues and synchronously invokes the
head entry exactly while the limiter is not closed, the queue is non-empty
and `start()` admits (on a closed limiter the drain loop moves nothing), and
consequently, under a concurrency-1 quota, task factories begin executing in
the exact order the tasks were submitted: the log of factory invocations is
always strictly increasing in submission order, over every event trace. -/
theorem C2_fifo_start_order :
    (∀ d : Nat, ∀ es : List Event,
      ((run (init 1 d) es).startLog).Pairwise (· < ·)) ∧
    (∀ (s : SysState) (q : List Nat),
      drainGo q { s with isClosed := true } = { s with isClosed := true, queue := q }) := by
  constructor
  · intro d es
    exact (inv_run es (init 1 d) (inv_init 1 d)).logSorted
  · intro s q
    cases q with
    | nil => rfl
    | cons a l => simp [drainGo]

/-- C5: `cleanup` is idempotent: over any event trace, the manager's
`close()` has been called exactly once if the trace contains at least one
`cleanup` call (no matter how many), and never otherwise. -/
theorem C5_cleanup_idempotent (c d : Nat) (es : List Event) :
    (run (init c d) es).qm.closeCalls = if Event.cleanup ∈ es then 1 else 0 := by
  have h1 := (inv_run es (init c d) (inv_init c d)).closeOnce
  have h2 := isClosed_run es (init c d)
  rw [h1, h2]
  by_cases hm : Event.cleanup ∈ es
  · simp [init, hm]
  · simp [init, hm]

/-- C4: after a `cleanup` occurs in the trace, a `limiter` call only appends
a task whose promise is already rejected with the closed error: the queue,
the manager and every other component of the state are untouched, nothing is
enqueued and no admission happens. -/
theorem C4_closed_submit_rejects (c d : Nat) (es1 es2 : List Event) (o : Sum Nat Nat) :
    step (Event.submit o) (run (init c d) (es1 ++ Event.cleanup :: es2)) =
      { run (init c d) (es1 ++ Event.cleanup :: es2) with
        tasks := (run (init c d) (es1 ++ Event.cleanup :: es2)).tasks ++ [closedTask o] } ∧
    nth? (step (Event.submit o) (run (init c d) (es1 ++ Event.cleanup :: es2))).tasks
        (run (init c d) (es1 ++ Event.cleanup :: es2)).tasks.length = some (closedTask o) := by
  have hm : Event.cleanup ∈ es1 ++ Event.cleanup :: es2 :=
    List.mem_append.mpr (Or.inr (List.mem_cons_self _ _))
  have hclosed : (run (init c d) (es1 ++ Event.cleanup :: es2)).isClosed = true := by
    rw [isClosed_run]
    simp [init, hm]
  have heq : step (Event.submit o) (run (init c d) (es1 ++ Event.cleanup :: es2)) =
      { run (init c d) (es1 ++ Event.cleanup :: es2) with
        tasks := (run (init c d) (es1 ++ Event.cleanup :: es2)).tasks ++ [closedTask o] } := by
    show submitStep o _ = _
    simp [submitStep, hclosed]
  refine ⟨heq, ?_⟩
  rw [heq]
  exact nth?_append_len _ _

/-- C7: the scheduling loop arms the fallback poll timer exactly when, after
draining, the queue is non-empty, `activeCount` is zero and no timer is
armed; at most one fallback callback is ever outstanding (the ghost count of
scheduled callbacks is 1 when the handle is set and 0 otherwise, in every
reachable state); and the firing callback clears the handle before
re-invoking the loop. -/
theorem C7_fallback_timer :
    (∀ c d : Nat, ∀ es : List Event,
      (run (init c d) es).outstanding =
        (if (run (init c d) es).timerArmed = true then 1 else 0)) ∧
    (∀ s : SysState, (nextFn s).timerArmed = true ↔
      ((drainGo s.queue s).timerArmed = true ∨
       ((drainGo s.queue s).queue ≠ [] ∧ (drainGo s.queue s).qm.activeCount = 0))) ∧
    (∀ s : SysState, step Event.fallbackFire s =
      nextFn { s with timerArmed := false, outstanding := s.outstanding - 1 }) := by
  refine ⟨?_, ?_, ?_⟩
  · intro c d es
    exact (inv_run es (init c d) (inv_init c d)).timerCount
  · intro s
    by_cases hcond : ((drainGo s.queue s).queue ≠ [] ∧
        (drainGo s.queue s).qm.activeCount = 0 ∧ (drainGo s.queue s).timerArmed = false)
    · have hn : nextFn s = { drainGo s.queue s with
          timerArmed := true, outstanding := (drainGo s.queue s).outstanding + 1 } := by
        simp only [nextFn]
        rw [if_pos hcond]
      rw [hn]
      simp only [true_iff]
      exact Or.inr ⟨hcond.1, hcond.2.1⟩
    · have hn : nextFn s = drainGo s.queue s := by
        simp only [nextFn]
        rw [if_neg hcond]
      rw [hn]
      constructor
      · intro h; exact Or.inl h
      · intro h
        rcases h with h | ⟨h1, h2⟩
        · exact h
        · cases htA : (drainGo s.queue s).timerArmed with
          | false => exact absurd ⟨h1, h2, htA⟩ hcond
          | true => rfl
  · intro s
    rfl

/-- C8: once a runner has invoked its task factory the deadline can never
fire for it (its deadline timer is cleared, never armed or fired), and a
timeout rejection is only ever delivered to a task that never began running
— in every reachable state. -/
theorem C8_started_never_abandoned (c d : Nat) (es : List Event) (tid : Nat)
    (t : TaskState) (h : nth? (run (init c d) es).tasks tid = some t) :
    (t.ran = true → t.deadline ≠ Deadline.armed ∧ t.deadline ≠ Deadline.firedTimer) ∧
    (t.promise = Promise.rejected Err.timeout →
      t.ran = false ∧ t.deadline = Deadline.firedTimer) := by
  have htok := (inv_run es (init c d) (inv_init c d)).tasksOK tid t h
  constructor
  · intro hr
    rcases htok.ranClear hr with hc | hc <;> rw [hc] <;> exact ⟨by simp, by simp⟩
  · intro hp
    have hf := htok.timeoutFired hp
    exact ⟨(htok.firedProps hf).1, hf⟩

/-- Witness for C8 at a concrete trace: one submitted task under a
concurrency-1, no-deadline quota starts immediately; the theorem yields that
its (started) record has a cleared-or-absent deadline. -/
theorem C8_witness :
    Deadline.noTimer ≠ Deadline.armed ∧ Deadline.noTimer ≠ Deadline.firedTimer :=
  (C8_started_never_abandoned 1 0 [Event.submit (Sum.inl 5)] 0
    ⟨Promise.pending, 0, Deadline.noTimer, true, false, false, Sum.inl 5⟩
    (by decide)).1 rfl

/-- C3: when a deadline timer fires before its runner is dequeued, the task's
promise is rejected with the timeout error (in exactly one settlement call)
and — whatever happens afterwards, including the abandoned entry being
dequeued — the task's factory is never invoked, its record never changes
again, no second settlement call is ever made on its promise, and its
handlers (hence `end()`) never run. -/
theorem C3_timeout_abandoned (c d : Nat) (es1 : List Event) (tid : Nat)
    (es2 : List Event)
    (hen : enabled (Event.deadlineFire tid) (run (init c d) es1) = true) :
    ∃ t : TaskState,
      nth? (run (step (Event.deadlineFire tid) (run (init c d) es1)) es2).tasks tid
          = some t ∧
      t.deadline = Deadline.firedTimer ∧ t.ran = false ∧
      t.promise = Promise.rejected Err.timeout ∧ t.settleAttempts = 1 ∧
      t.handlerDone = false ∧ t.ended = false := by
  have hInv : Inv (run (init c d) es1) := inv_run es1 (init c d) (inv_init c d)
  rcases hmt : nth? (run (init c d) es1).tasks tid with _ | t0
  · simp [enabled, hmt] at hen
  · have harmed : t0.deadline = Deadline.armed := by simpa [enabled, hmt] using hen
    obtain ⟨hr0, hh0, hp0, ha0⟩ := (hInv.tasksOK tid t0 hmt).armedProps harmed
    have hend0 : t0.ended = false := (hInv.tasksOK tid t0 hmt).ended_false hh0
    have hmd : (run (init c d) es1).qm.maxDelay ≠ 0 := by
      intro h0
      have hnt := (hInv.tasksOK tid t0 hmt).noTimerZero h0
      rw [hnt] at harmed
      simp at harmed
    refine ⟨{ t0 with
              deadline := Deadline.firedTimer,
              settleAttempts := t0.settleAttempts + 1,
              promise := if t0.promise = Promise.pending
                then Promise.rejected Err.timeout else t0.promise },
            ?_, rfl, hr0, by simp [hp0], by simp [ha0], hh0, hend0⟩
    have hInv1 : Inv (step (Event.deadlineFire tid) (run (init c d) es1)) := by
      have h := inv_step (Event.deadlineFire tid) hInv
      rwa [if_pos hen] at h
    refine fired_run es2 _ hInv1 ?_ rfl
    show nth? (deadlineFireStep tid (run (init c d) es1)).tasks tid = some _
    rw [deadlineFireStep_eq, nextFn_tasks]
    apply drainGo_nth_frozen (by simp)
    · exact hmd
    · rw [attemptSettle_tasks]
      show nth? (updAt tid _ (updAt tid
        (fun u => { u with deadline := Deadline.firedTimer })
        (run (init c d) es1).tasks)) tid = some _
      rw [nth?_updAt_self, nth?_updAt_self, hmt]
      rfl

/-- Witness for C3: under concurrency 1 with `maxDelay = 50`, task 1 queues
behind task 0; its deadline fires while queued, task 0 then settles (which
dequeues the abandoned entry), and the fallback timer fires — and task 1's
record is the rejected-by-timeout, never-run record. -/
theorem C3_witness :
    ∃ t : TaskState,
      nth? (run (step (Event.deadlineFire 1) (run (init 1 50)
          [Event.submit (Sum.inl 1), Event.submit (Sum.inl 2)]))
          [Event.settle 0, Event.fallbackFire]).tasks 1 = some t ∧
      t.deadline = Deadline.firedTimer ∧ t.ran = false ∧
      t.promise = Promise.rejected Err.timeout ∧ t.settleAttempts = 1 ∧
      t.handlerDone = false ∧ t.ended = false :=
  C3_timeout_abandoned 1 50 [Event.submit (Sum.inl 1), Event.submit (Sum.inl 2)] 1
    [Event.settle 0, Event.fallbackFire] (by decide)

/-- C6: when an admitted task's factory settles, the completion handler calls
`QuotaManager.end()` (end-call count up by one, active count down by one),
settles the caller's promise with the task's own outcome verbatim (the value
on fulfilment, the task's own error on rejection), marks the handlers done,
and the whole step is exactly that handler followed by one re-invocation of
the scheduling loop. -/
theorem C6_settlement_handler (s : SysState) (tid : Nat) (t : TaskState)
    (ht : nth? s.tasks tid = some t) (hran : t.ran = true)
    (hdone : t.handlerDone = false) (hp : t.promise = Promise.pending)
    (ha0 : t.settleAttempts = 0) :
    step (Event.settle tid) s = nextFn (settleBody tid t s) ∧
    (settleBody tid t s).qm.endCalls = s.qm.endCalls + 1 ∧
    (settleBody tid t s).qm.activeCount = s.qm.activeCount - 1 ∧
    nth? (settleBody tid t s).tasks tid = some
      { t with
        promise := (match t.outcome with
                    | Sum.inl v => Promise.fulfilled v
                    | Sum.inr e => Promise.rejected (Err.taskErr e)),
        settleAttempts := 1, handlerDone := true, ended := true } := by
  refine ⟨by simp [step, settleStep, ht], rfl, rfl, ?_⟩
  rw [settleBody_tasks, nth?_updAt_self, nth?_updAt_self, ht]
  simp [hp, ha0]

/-- Witness for C6: a single task under concurrency 2 starts immediately;
settling it runs the handler, bumping the end-call count, dropping the active
count to zero, and fulfilling the promise with the task's value 7. -/
theorem C6_witness :
    step (Event.settle 0) (run (init 2 0) [Event.submit (Sum.inl 7)]) =
      nextFn (settleBody 0
        ⟨Promise.pending, 0, Deadline.noTimer, true, false, false, Sum.inl 7⟩
        (run (init 2 0) [Event.submit (Sum.inl 7)])) ∧
    (settleBody 0 ⟨Promise.pending, 0, Deadline.noTimer, true, false, false, Sum.inl 7⟩
        (run (init 2 0) [Event.submit (Sum.inl 7)])).qm.endCalls =
      (run (init 2 0) [Event.submit (Sum.inl 7)]).qm.endCalls + 1 ∧
    (settleBody 0 ⟨Promise.pending, 0, Deadline.noTimer, true, false, false, Sum.inl 7⟩
        (run (init 2 0) [Event.submit (Sum.inl 7)])).qm.activeCount =
      (run (init 2 0) [Event.submit (Sum.inl 7)]).qm.activeCount - 1 ∧
    nth? (settleBody 0 ⟨Promise.pending, 0, Deadline.noTimer, true, false, false, Sum.inl 7⟩
        (run (init 2 0) [Event.submit (Sum.inl 7)])).tasks 0 = some
      ⟨Promise.fulfilled 7, 1, Deadline.noTimer, true, true, true, Sum.inl 7⟩ :=
  C6_settlement_handler (run (init 2 0) [Event.submit (Sum.inl 7)]) 0
    ⟨Promise.pending, 0, Deadline.noTimer, true, false, false, Sum.inl 7⟩
    (by decide) rfl rfl rfl rfl

/-- C9: once the limiter is closed, a task still in the pending queue with no
deadline timer is never dequeued by any later events, and its record (hence
its pending promise) never changes: it stays queued and pending forever. -/
theorem C9_closed_queued_stuck (s : SysState) (tid : Nat) (t : TaskState)
    (es : List Event) (hc : s.isClosed = true) (hmem : tid ∈ s.queue)
    (ht : nth? s.tasks tid = some t) (hnd : t.deadline = Deadline.noTimer)
    (hnr : t.ran = false) (hp : t.promise = Promise.pending) :
    tid ∈ (run s es).queue ∧ (run s es).queue = s.queue ∧
    nth? (run s es).tasks tid = some t := by
  obtain ⟨h1, h2, h3⟩ := closed_frozen_run es s tid t hc ht (by rw [hnd]; simp) hnr
  exact ⟨by rw [h2]; exact hmem, h2, h3⟩

/-- Witness for C9: under concurrency 1 with no deadlines, task 1 queues
behind task 0 and the limiter is closed; after task 0 settles, the fallback
timer fires and another submission arrives, task 1 is still queued and still
pending. -/
theorem C9_witness :
    1 ∈ (run (run (init 1 0) [Event.submit (Sum.inl 1), Event.submit (Sum.inl 2),
        Event.cleanup]) [Event.settle 0, Event.fallbackFire,
        Event.submit (Sum.inl 3)]).queue ∧
    (run (run (init 1 0) [Event.submit (Sum.inl 1), Event.submit (Sum.inl 2),
        Event.cleanup]) [Event.settle 0, Event.fallbackFire,
        Event.submit (Sum.inl 3)]).queue =
      (run (init 1 0) [Event.submit (Sum.inl 1), Event.submit (Sum.inl 2),
        Event.cleanup]).queue ∧
    nth? (run (run (init 1 0) [Event.submit (Sum.inl 1), Event.submit (Sum.inl 2),
        Event.cleanup]) [Event.settle 0, Event.fallbackFire,
        Event.submit (Sum.inl 3)]).tasks 1 =
      some ⟨Promise.pending, 0, Deadline.noTimer, false, false, false, Sum.inl 2⟩ :=
  C9_closed_queued_stuck
    (run (init 1 0) [Event.submit (Sum.inl 1), Event.submit (Sum.inl 2), Event.cleanup])
    1 ⟨Promise.pending, 0, Deadline.noTimer, false, false, false, Sum.inl 2⟩
    [Event.settle 0, Event.fallbackFire, Event.submit (Sum.inl 3)]
    (by decide) (by decide) (by decide) rfl rfl rfl

/-- C10: the fallback-timer arming condition never consults the closed flag:
on a closed limiter with a non-empty queue and zero active count, the
scheduling loop arms the timer even though it can never dequeue anything,
and each firing of the timer reproduces exactly the same armed state, so the
limiter re-arms its poll timer indefinitely instead of going quiescent. -/
theorem C10_closed_rearms (s : SysState) (n : Nat)
    (hc : s.isClosed = true) (hq : s.queue ≠ [])
    (ha : s.qm.activeCount = 0) (htm : s.timerArmed = true)
    (hout : s.outstanding = 1) :
    (nextFn { s with timerArmed := false, outstanding := 0 }).timerArmed = true ∧
    run s (List.replicate n Event.fallbackFire) = s := by
  have hc' : ({ s with timerArmed := false, outstanding := 0 } : SysState).isClosed
      = true := hc
  have hd : drainGo ({ s with timerArmed := false, outstanding := 0 } : SysState).queue
      { s with timerArmed := false, outstanding := 0 } =
      { s with timerArmed := false, outstanding := 0 } := by
    rw [drainGo_closed hc']
  have hcond : (({ s with timerArmed := false, outstanding := 0 } : SysState).queue ≠ [] ∧
      ({ s with timerArmed := false, outstanding := 0 } : SysState).qm.activeCount = 0 ∧
      ({ s with timerArmed := false, outstanding := 0 } : SysState).timerArmed = false) :=
    ⟨hq, ha, rfl⟩
  have hnx : nextFn { s with timerArmed := false, outstanding := 0 } =
      { s with timerArmed := true, outstanding := 1 } := by
    simp only [nextFn, hd]
    simp [hq, ha]
  have hs_eq : ({ s with timerArmed := true, outstanding := 1 } : SysState) = s := by
    rw [← htm, ← hout]
  have hstep : step Event.fallbackFire s = s := by
    show fallbackFireStep s = s
    unfold fallbackFireStep
    rw [hout]
    show nextFn { s with timerArmed := false, outstanding := 0 } = s
    rw [hnx]
    exact hs_eq
  have hen : enabled Event.fallbackFire s = true := by
    simp [enabled, hout]
  refine ⟨by rw [hnx], ?_⟩
  induction n with
  | zero => rfl
  | succ m ih =>
    show run (if enabled Event.fallbackFire s then step Event.fallbackFire s else s)
      (List.replicate m Event.fallbackFire) = s
    rw [if_pos hen, hstep]
    exact ih

/-- Witness for C10: concurrency 1, two tasks, close, then the running task
settles — leaving a closed limiter with task 1 queued, nothing active and the
fallback timer armed; three fallback firings leave the state identical (the
timer is re-armed each time). -/
theorem C10_witness :
    (nextFn { (run (init 1 0) [Event.submit (Sum.inl 1), Event.submit (Sum.inl 2),
        Event.cleanup, Event.settle 0]) with
        timerArmed := false, outstanding := 0 }).timerArmed = true ∧
    run (run (init 1 0) [Event.submit (Sum.inl 1), Event.submit (Sum.inl 2),
        Event.cleanup, Event.settle 0]) (List.replicate 3 Event.fallbackFire) =
      run (init 1 0) [Event.submit (Sum.inl 1), Event.submit (Sum.inl 2),
        Event.cleanup, Event.settle 0] :=
  C10_closed_rearms
    (run (init 1 0) [Event.submit (Sum.inl 1), Event.submit (Sum.inl 2),
      Event.cleanup, Event.settle 0]) 3
    (by decide) (by decide) (by decide) (by decide) (by decide)

/-- C1 (evaluation of the code on the divergence scenario): under concurrency
1 with `maxDelay = 50`, task 1's deadline fires while it is queued behind
task 0; when task 0 settles, the loop admits task 1 (`start()` succeeds: two
admissions counted) and dequeues its runner, which returns without calling
`end()` — so only one `end()` call ever happens, `activeCount` stays 1 with
an empty queue, and (second part) task 1's record is frozen forever after:
its runner never runs and its `end()` is never called, for every
continuation of the trace.  The admitted slot is permanently leaked. -/
theorem C1_admission_leak_eval :
    ((run (init 1 50) [Event.submit (Sum.inl 1), Event.submit (Sum.inl 2),
        Event.deadlineFire 1, Event.settle 0]).qm.admissions = 2 ∧
     (run (init 1 50) [Event.submit (Sum.inl 1), Event.submit (Sum.inl 2),
        Event.deadlineFire 1, Event.settle 0]).qm.endCalls = 1 ∧
     (run (init 1 50) [Event.submit (Sum.inl 1), Event.submit (Sum.inl 2),
        Event.deadlineFire 1, Event.settle 0]).qm.activeCount = 1 ∧
     (run (init 1 50) [Event.submit (Sum.inl 1), Event.submit (Sum.inl 2),
        Event.deadlineFire 1, Event.settle 0]).queue = []) ∧
    (∀ es2 : List Event,
      nth? (run (run (init 1 50) [Event.submit (Sum.inl 1), Event.submit (Sum.inl 2),
          Event.deadlineFire 1, Event.settle 0]) es2).tasks 1 =
        some ⟨Promise.rejected Err.timeout, 1, Deadline.firedTimer,
              false, false, false, Sum.inl 2⟩) := by
  constructor
  · exact ⟨by decide, by decide, by decide, by decide⟩
  · intro es2
    refine fired_run es2 _ (inv_run _ _ (inv_init 1 50)) ?_ rfl
    decide

end PRateLimit
